import Mathlib

/-!
Verification of the entry-formatting core of the a2b repository
(`src/features/EntryCard.tsx`): the key/author-list builder
`joinAuthorsGetKey`, the pairing builder `buildPairing`, and the renderer
`formatEntry`.

Strings are modelled by Lean `String`; where reasoning needs it we work on
the underlying `List Char`.  JSX values that can appear in a pairing are
modelled by the inductive `PVal`, whose rendered text (`innerText`) is
`pvalText`.  JavaScript truthiness of pairing values is `truthyV`:
a string is truthy iff non-empty, a JSX element is always truthy, and
`null`/absent values are modelled by `Option`.
-/

/-! ## Character-list helpers -/

/-- `n` space characters, as a list. -/
def spacesL (n : Nat) : List Char := List.replicate n ' '

/-- `" ".repeat(n)`: `n` space characters, as a string. -/
def spaces (n : Nat) : String := ⟨spacesL n⟩

/-- `s.slice(0, n)` of JavaScript: the first `n` characters of `s`.
(The strings handled here are ASCII, so code-unit slicing and character
slicing agree.) -/
def jsSlice (s : String) (n : Nat) : String := ⟨s.data.take n⟩

/-- `` `${key[0]}/` ``-style indexing: the first character of `s`; for an
empty string, JavaScript yields `undefined`, which a template literal
renders as the text `"undefined"`. -/
def jsIndex0 (s : String) : String :=
  if s.data = [] then "undefined" else ⟨s.data.take 1⟩

/-- JavaScript string concatenation of a possibly-`undefined` value:
`undefined + s` renders `undefined` as the text `"undefined"`. -/
def jsUndef (o : Option String) : String := o.getD "undefined"

/-- `Array.prototype.join("")`/JSX child concatenation: concatenate a list
of strings in order. -/
def concatLines : List String → String
  | [] => ""
  | s :: rest => s ++ concatLines rest

/-- `Array.prototype.join(sep)`: concatenate with `sep` between elements.
(A `join` renders an `undefined` element as the empty string; callers pass
the already-defaulted strings.) -/
def joinSep (sep : String) : List String → String
  | [] => ""
  | [s] => s
  | s :: rest => s ++ sep ++ joinSep sep rest

/-- Split a character list at every character satisfying `p`; the
separators are dropped and the (possibly empty) chunks between them are
returned.  Mirrors `String.prototype.split` on a single-character class. -/
def splitP (p : Char → Bool) : List Char → List (List Char)
  | [] => [[]]
  | c :: cs =>
    if p c then [] :: splitP p cs
    else
      match splitP p cs with
      | [] => [[c]]
      | t :: ts => (c :: t) :: ts

/-- The lines of a character list: split at every newline character. -/
def splitLines (l : List Char) : List (List Char) :=
  splitP (fun c => c == '\n') l

/-- The lines of a string. -/
def splitLinesStr (s : String) : List String :=
  (splitLines s.data).map (fun l => ⟨l⟩)

/-- Replace every newline by a newline followed by `pad`
(`replace(/\n/g, "\n" + pad)` at the character level). -/
def padNLGo (pad : List Char) : List Char → List Char
  | [] => []
  | c :: cs =>
    if c = '\n' then '\n' :: (pad ++ padNLGo pad cs)
    else c :: padNLGo pad cs

/-- `s.replace(/\n/g, "\n" + " ".repeat(n))`: re-indent every continuation
line of `s` by `n` spaces. -/
def padNL (n : Nat) (s : String) : String := ⟨padNLGo (spacesL n) s.data⟩

/-- Strip leading and trailing space characters from a character list. -/
def trimSp (l : List Char) : List Char :=
  ((l.dropWhile (fun c => c == ' ')).reverse.dropWhile (fun c => c == ' ')).reverse

/-- The index of the first `'='` in a character list (the list's length
when there is none): the 0-based column of the equals sign of a rendered
line. -/
def firstEqIdx (l : List Char) : Nat :=
  (l.takeWhile (fun c => c != '=')).length

/-! ## Modelled utilities (`../utils` is not under `src/`) -/

/-- Modelled from the spec: the table of accented Latin letters and their
base letters used by `removeAccents` ("diacritics/accents stripped to base
Latin letters", spec §4.1). -/
def accentTable : List (Char × Char) :=
  [('á', 'a'), ('à', 'a'), ('â', 'a'), ('ä', 'a'), ('ã', 'a'), ('å', 'a'),
   ('ç', 'c'), ('é', 'e'), ('è', 'e'), ('ê', 'e'), ('ë', 'e'),
   ('í', 'i'), ('ì', 'i'), ('î', 'i'), ('ï', 'i'), ('ñ', 'n'),
   ('ó', 'o'), ('ò', 'o'), ('ô', 'o'), ('ö', 'o'), ('õ', 'o'), ('ø', 'o'),
   ('ú', 'u'), ('ù', 'u'), ('û', 'u'), ('ü', 'u'), ('ý', 'y'), ('ÿ', 'y'),
   ('Á', 'A'), ('À', 'A'), ('Â', 'A'), ('Ä', 'A'), ('Ã', 'A'), ('Å', 'A'),
   ('Ç', 'C'), ('É', 'E'), ('È', 'E'), ('Ê', 'E'), ('Ë', 'E'),
   ('Í', 'I'), ('Ì', 'I'), ('Î', 'I'), ('Ï', 'I'), ('Ñ', 'N'),
   ('Ó', 'O'), ('Ò', 'O'), ('Ô', 'O'), ('Ö', 'O'), ('Õ', 'O'), ('Ø', 'O'),
   ('Ú', 'U'), ('Ù', 'U'), ('Û', 'U'), ('Ü', 'U'), ('Ý', 'Y')]

/-- Modelled from the spec: strip the diacritic from a single character,
leaving characters without an entry in the table unchanged. -/
def stripDiacritic (c : Char) : Char :=
  match accentTable.lookup c with
  | some b => b
  | none => c

/-- Modelled from the spec: `removeAccents` from `../utils`, which is not
under `src/`.  Spec §4.1: "Key = unformatted key with diacritics/accents
stripped to base Latin letters."  A character-wise map. -/
def removeAccents (s : String) : String := ⟨s.data.map stripDiacritic⟩

/-- Modelled from the spec: `splitter(a, /\s+/)` from `../utils`, which is
not under `src/`.  Spec §4.1: "For each author, split on whitespace into
tokens"; spec §7: "multiple consecutive spaces collapse to one split
point", so empty chunks are dropped. -/
def splitter (s : String) : List String :=
  ((splitP Char.isWhitespace s.data).map (fun l => (⟨l⟩ : String))).filter
    (fun t => t != "")

/-! ## `joinAuthorsGetKey` (EntryCard.tsx lines 24-42) -/

/-- The result of `joinAuthorsGetKey`. -/
structure KeyAuthors where
  key : String
  authorList : String
deriving DecidableEq

/-- `joinAuthorsGetKey({authors, date})`: the citation key made from the
authors' last names and the date, and the formatted author list.
`l[l.length - 1]` is `undefined` in JavaScript when `l` is empty; string
concatenation renders it as `"undefined"` while `Array.join` renders it as
the empty string, hence the two different defaults. -/
def joinAuthorsGetKey (authors : List String) (date : String) : KeyAuthors :=
  let splitAuthors := authors.map splitter
  let authorList := joinSep " and "
    (splitAuthors.map (fun l =>
      jsUndef l.getLast? ++ ", " ++ joinSep " " l.dropLast))
  let year := jsSlice date 4
  let unformattedKey :=
    concatLines (splitAuthors.map (fun l => (l.getLast?).getD "")) ++ year
  { key := removeAccents unformattedKey, authorList := authorList }

/-- The surname of one author: the last whitespace-separated token of the
name (the empty string when the name has no token). -/
def surnameOf (a : String) : String := ((splitter a).getLast?).getD ""

/-! ## The data model (Entry, Settings, pairing values) -/

/-- A pairing value: plain text, an `<a href>` link, or an `<abbr title>`
flag.  `pvalText` is the rendered (inner) text. -/
inductive PVal where
  | str (s : String)
  | link (href text : String)
  | abbr (title text : String)
deriving DecidableEq

/-- The rendered text of a pairing value (the `innerText` that ends up in
the copied block). -/
def pvalText : PVal → String
  | .str s => s
  | .link _ text => text
  | .abbr _ text => text

/-- JavaScript truthiness of a pairing value: a string is truthy iff
non-empty; a JSX element is always truthy. -/
def truthyV : PVal → Bool
  | .str s => s != ""
  | _ => true

/-- An entry, as supplied by the form (spec §3).  Optional string fields
are absent when empty, matching JavaScript falsiness of `""`. -/
structure Entry where
  authors : List String
  title : String
  mainTitle : String
  subTitle : String
  date : String
  type : String
  journal : String
  series : String
  volume : String
  number : String
  publisher : String
  location : String
  ISBN : String
  pageTotal : String
  pubstate : String
  id : String
  primaryCategory : String
  version : String
  doi : String
  journalRef : String
  pdfLink : String
  comment : String
  abstract : String

/-- The settings (spec §3). -/
structure Settings where
  mode : String
  filePrefix : Bool
  fileFolder : String
  includeFile : Bool
  includeAbstract : Bool
  includeWget : Bool
  includeVersion : Bool
  includePrimaryCategory : Bool
  wgetPowershell : Bool

/-- `goodMode`: `settings.mode === "biblatex"` (good = biblatex,
bad = bibtex). -/
def goodMode (s : Settings) : Bool := s.mode == "biblatex"

/-- The key and author list of an entry, via `joinAuthorsGetKey`. -/
def keyAuthorsOf (e : Entry) : KeyAuthors :=
  joinAuthorsGetKey e.authors e.date

/-- The citation key of an entry. -/
def keyOf (e : Entry) : String := (keyAuthorsOf e).key

/-- The generated file name (EntryCard.tsx line 113):
`` (settings.filePrefix ? `${key[0]}/` : "") + `${key}.pdf` ``. -/
def fileNameOf (e : Entry) (s : Settings) : String :=
  (if s.filePrefix then jsIndex0 (keyOf e) ++ "/" else "")
    ++ (keyOf e ++ ".pdf")

/-- The `file` value: a link to the PDF when a `pdfLink` exists, else the
plain file name. -/
def fileLinkOf (e : Entry) (s : Settings) : PVal :=
  if e.pdfLink != "" then PVal.link e.pdfLink (fileNameOf e s)
  else PVal.str (fileNameOf e s)

/-- The tooltip of the flagged journal reference. -/
def abbrTitle : String :=
  "Consider converting this entry to @article or something more appropriate."

/-- The flagged journal reference (`<abbr>`), when a `journalRef` exists. -/
def journalRefLinkOf (e : Entry) : Option PVal :=
  if e.journalRef != "" then some (PVal.abbr abbrTitle e.journalRef)
  else none

/-- The DOI link, when a `doi` exists. -/
def doiLinkOf (e : Entry) : Option PVal :=
  if e.doi != "" then
    some (PVal.link ("https://dx.doi.org/" ++ e.doi) e.doi)
  else none

/-- The journal value: in bad mode the series, if any, is appended in
parentheses (EntryCard.tsx lines 130-136). -/
def journalValOf (e : Entry) (s : Settings) : Option PVal :=
  if e.journal != "" then
    some (PVal.str (e.journal
      ++ (if !(goodMode s) && e.series != "" then " (" ++ e.series ++ ")"
          else "")))
  else none

/-- The arXiv abstract-page URL of an entry. -/
def absURLOf (e : Entry) : String := "https://arxiv.org/abs/" ++ e.id

/-- The pairing as assembled by `buildPairing` (EntryCard.tsx lines
143-197), before empty values are deleted.  A `none` value models
JavaScript `null`. -/
def assembledPairing (e : Entry) (s : Settings) : List (String × Option PVal) :=
  [("author", some (PVal.str (keyAuthorsOf e).authorList)),
   ((if goodMode s then "date" else "year"),
     some (PVal.str (if goodMode s then e.date else jsSlice e.date 4))),
   ("title", some (PVal.str e.title)),
   ((if goodMode s then "journaltitle" else "journal"), journalValOf e s),
   ("series", if goodMode s then some (PVal.str e.series) else none),
   ("maintitle", some (PVal.str e.mainTitle)),
   ("subtitle", some (PVal.str e.subTitle)),
   ("volume", some (PVal.str e.volume)),
   ("number", some (PVal.str e.number)),
   ("publisher", some (PVal.str e.publisher)),
   ("location", some (PVal.str e.location)),
   ("isbn", some (PVal.str e.ISBN)),
   ("pagetotal", some (PVal.str e.pageTotal))]
  ++ (if e.id != "" then
   [("eprint", some (PVal.link (absURLOf e) e.id)),
    ((if goodMode s then "eprinttype" else "archiveprefix"),
      some (PVal.str "arXiv")),
    ((if goodMode s then "eprintclass" else "primaryclass"),
      if s.includePrimaryCategory then some (PVal.str e.primaryCategory)
      else none),
    ("version",
      if goodMode s && s.includeVersion then some (PVal.str e.version)
      else none),
    ("url", if goodMode s then none else some (PVal.str (absURLOf e)))]
   else [])
  ++ (if goodMode s then
   [("pubstate", some (PVal.str e.pubstate)),
    ("howpublished", journalRefLinkOf e)]
   else
   [("note",
      if e.doi != "" || e.journalRef != "" then journalRefLinkOf e
      else some (PVal.str "Preprint"))])
  ++ [("doi", doiLinkOf e),
      ("file", if s.includeFile then some (fileLinkOf e s) else none),
      ("comment", some (PVal.str e.comment)),
      ("abstract",
        if s.includeAbstract then some (PVal.str e.abstract) else none)]

/-- Delete all empty values (EntryCard.tsx line 200):
`Object.keys(pairing).forEach((k) => !pairing[k] && delete pairing[k])`. -/
def delEmpty : List (String × Option PVal) → List (String × PVal)
  | [] => []
  | (k, ov) :: rest =>
    match ov with
    | some v => if truthyV v then (k, v) :: delEmpty rest else delEmpty rest
    | none => delEmpty rest

/-- The result of `buildPairing`. -/
structure BuildResult where
  type : String
  pairing : List (String × PVal)
  key : String
  wget : Option String

/-- `buildPairing({entry, settings})` (EntryCard.tsx lines 96-213). -/
def buildPairing (e : Entry) (s : Settings) : BuildResult :=
  { type := e.type
    pairing := delEmpty (assembledPairing e s)
    key := keyOf e
    wget :=
      if s.includeFile && e.pdfLink != "" then
        some (if s.wgetPowershell then
            "pwsh -Command Invoke-WebRequest " ++ e.pdfLink ++ " -OutFile "
              ++ s.fileFolder ++ "\\" ++ fileNameOf e s
          else
            "wget --user-agent='Mozilla' " ++ e.pdfLink ++ " -O "
              ++ s.fileFolder ++ "/" ++ fileNameOf e s)
      else none }

/-! ## `formatEntry` (EntryCard.tsx lines 49-90) -/

/-- The length of the longest key of a pairing
(`Math.max(...Object.keys(pairing).map((s) => s.length))`; for an empty
pairing JavaScript yields `-Infinity`, which is never used since there is
then no line to pad and no abstract). -/
def maxKeyLen (pairing : List (String × PVal)) : Nat :=
  pairing.foldr (fun p acc => max p.1.length acc) 0

/-- The abstract-padding step applied to one value (EntryCard.tsx lines
62-67): a truthy abstract string has every newline replaced by a newline
plus `maxKeyLength + 6` spaces.  (Only a string can reach the `.replace`;
`buildPairing` only ever stores a string or `null` under `abstract`.) -/
def padVal (m : Nat) : PVal → PVal
  | .str s => if s = "" then .str s else .str (padNL (m + 6) s)
  | v => v

/-- The mutation `formatEntry` performs on its input pairing: the value
under the key `"abstract"` is overwritten with its padded form; every
other entry is untouched. -/
def padAbstract (m : Nat) (pairing : List (String × PVal)) :
    List (String × PVal) :=
  pairing.map (fun p => if p.1 = "abstract" then (p.1, padVal m p.2) else p)

/-- One rendered body line (EntryCard.tsx lines 73-86):
two spaces of indent, the key, padding spaces aligning the equals signs,
`" = {"`, the value's text, `"},"`. -/
def fieldLine (m : Nat) (k v : String) : String :=
  "  " ++ k ++ spaces (m - k.length) ++ " = \x7b" ++ v ++ "\x7d,"

/-- The text rendered by `formatEntry` (the `innerText` of the produced
fragment): the header `@<type>{<key>,`, one line per pairing entry in
order, and the closing `}`. -/
def formatEntryText (type key : String) (pairing : List (String × PVal)) :
    String :=
  let m := maxKeyLen pairing
  "@" ++ type ++ "\x7b" ++ key ++ ",\n"
    ++ concatLines ((padAbstract m pairing).map
        (fun p => fieldLine m p.1 (pvalText p.2) ++ "\n"))
    ++ "\x7d"

/-- `formatEntry` with its side effect made explicit: the rendered text
together with the state of the caller's pairing object after the call
(the abstract has been overwritten with its padded form). -/
def formatEntryFull (type key : String) (pairing : List (String × PVal)) :
    String × List (String × PVal) :=
  (formatEntryText type key pairing, padAbstract (maxKeyLen pairing) pairing)

/-- One full render as `EntryCard` performs it: build a fresh pairing from
the entry and the settings, then format it. -/
def renderEntry (e : Entry) (s : Settings) : String :=
  let b := buildPairing e s
  (formatEntryFull b.type b.key b.pairing).1

/-- Two successive renders of the same entry: each render builds a fresh
pairing, so the mutation the first `formatEntry` performed on its (then
discarded) pairing is invisible to the second. -/
def renderTwice (e : Entry) (s : Settings) : String × String :=
  let b1 := buildPairing e s
  let r1 := formatEntryFull b1.type b1.key b1.pairing
  let b2 := buildPairing e s
  let r2 := formatEntryFull b2.type b2.key b2.pairing
  (r1.1, r2.1)

/-! ## A line-oriented re-parser for the round-trip claim -/

/-- Parse one rendered body line: split at the first `'='`, trim the
padding whitespace around the key, and read the value between `{` and
`},`. -/
def parseLine (l : List Char) : String × String :=
  let keyPart := l.takeWhile (fun c => c != '=')
  let afterEq := (l.dropWhile (fun c => c != '=')).drop 1
  let valPart := afterEq.dropWhile (fun c => c == ' ')
  (⟨trimSp keyPart⟩, ⟨((valPart.drop 1).dropLast).dropLast⟩)

/-- Re-parse a rendered entry: drop the header line and the closing `}`
line, and parse each body line. -/
def parseBody (s : String) : List (String × String) :=
  (((splitLines s.data).drop 1).dropLast).map parseLine

/-! ## Basic string lemmas -/

theorem str_ext {a b : String} (h : a.data = b.data) : a = b := by
  cases a
  cases b
  exact congrArg String.mk h

theorem sdata_append (a b : String) : (a ++ b).data = a.data ++ b.data := by
  cases a
  cases b
  rfl

theorem smk_data (s : String) : (⟨s.data⟩ : String) = s := by
  cases s
  rfl

theorem sdata_eq_nil {s : String} : s.data = [] ↔ s = "" := by
  constructor
  · intro h
    apply str_ext
    rw [h]
  · intro h
    subst h
    rfl

theorem slength_data (s : String) : s.length = s.data.length := rfl

theorem sappend_ne_left {a : String} (b : String) (h : a ≠ "") :
    a ++ b ≠ "" := by
  intro he
  apply h
  have hd : a.data ++ b.data = [] := by
    rw [← sdata_append, he]
  rw [← sdata_eq_nil]
  exact (List.append_eq_nil.mp hd).1

theorem sappend_ne_right (a : String) {b : String} (h : b ≠ "") :
    a ++ b ≠ "" := by
  intro he
  apply h
  have hd : a.data ++ b.data = [] := by
    rw [← sdata_append, he]
  rw [← sdata_eq_nil]
  exact (List.append_eq_nil.mp hd).2

theorem removeAccents_append (a b : String) :
    removeAccents (a ++ b) = removeAccents a ++ removeAccents b := by
  apply str_ext
  simp [removeAccents, sdata_append]

/-! ## takeWhile/dropWhile lemmas -/

theorem takeWhile_app (p : Char → Bool) (a b : List Char)
    (ha : ∀ c ∈ a, p c = true) :
    (a ++ b).takeWhile p = a ++ b.takeWhile p := by
  induction a with
  | nil => simp
  | cons c cs ih =>
    have hc := ha c (by simp)
    simp [List.takeWhile_cons, hc, ih (fun x hx => ha x (by simp [hx]))]

theorem dropWhile_app (p : Char → Bool) (a b : List Char)
    (ha : ∀ c ∈ a, p c = true) :
    (a ++ b).dropWhile p = b.dropWhile p := by
  induction a with
  | nil => simp
  | cons c cs ih =>
    have hc := ha c (by simp)
    simp [List.dropWhile_cons, hc, ih (fun x hx => ha x (by simp [hx]))]

theorem takeWhile_head_false (p : Char → Bool) (c : Char) (l : List Char)
    (hc : p c = false) : (c :: l).takeWhile p = [] := by
  simp [List.takeWhile_cons, hc]

theorem dropWhile_head_false (p : Char → Bool) (c : Char) (l : List Char)
    (hc : p c = false) : (c :: l).dropWhile p = c :: l := by
  simp [List.dropWhile_cons, hc]

/-! ## splitP lemmas -/

theorem splitP_ne_nil (p : Char → Bool) (l : List Char) : splitP p l ≠ [] := by
  induction l with
  | nil => simp [splitP]
  | cons c cs ih =>
    by_cases h : p c
    · simp [splitP, h]
    · cases hs : splitP p cs with
      | nil => exact absurd hs ih
      | cons t ts => simp [splitP, h, hs]

theorem splitP_append_no (p : Char → Bool) (a b : List Char)
    (t : List Char) (ts : List (List Char))
    (ha : ∀ c ∈ a, p c = false) (hb : splitP p b = t :: ts) :
    splitP p (a ++ b) = (a ++ t) :: ts := by
  induction a with
  | nil => simpa using hb
  | cons c cs ih =>
    have hc : p c = false := ha c (by simp)
    have ih2 := ih (fun x hx => ha x (by simp [hx]))
    simp [splitP, hc, ih2]

theorem splitP_sep (p : Char → Bool) (a b : List Char) (c : Char)
    (hc : p c = true) (ha : ∀ x ∈ a, p x = false) :
    splitP p (a ++ c :: b) = a :: splitP p b := by
  have h2 := splitP_append_no p a (c :: b) [] (splitP p b) ha
    (by simp [splitP, hc])
  simpa using h2

theorem splitP_no (p : Char → Bool) (a : List Char)
    (ha : ∀ c ∈ a, p c = false) : splitP p a = [a] := by
  have h2 := splitP_append_no p a [] [] [] ha (by simp [splitP])
  simpa using h2

/-! ## padNL lemmas -/

theorem padNLGo_no_nl (pad : List Char) (cs : List Char)
    (h : '\n' ∉ cs) : padNLGo pad cs = cs := by
  induction cs with
  | nil => rfl
  | cons c cs ih =>
    have hc : ¬(c = '\n') := by
      intro e
      exact h (by simp [e])
    simp [padNLGo, hc, ih (fun hm => h (by simp [hm]))]

theorem padNLGo_ne_nil (pad : List Char) (cs : List Char)
    (h : cs ≠ []) : padNLGo pad cs ≠ [] := by
  cases cs with
  | nil => exact absurd rfl h
  | cons c cs =>
    by_cases hc : c = '\n'
    · simp [padNLGo, hc]
    · simp [padNLGo, hc]

theorem splitLines_padNLGo (pad : List Char) (cs : List Char)
    (hpad : ∀ c ∈ pad, (c == '\n') = false) :
    splitLines (padNLGo pad cs)
      = (splitLines cs).headD []
        :: ((splitLines cs).tail).map (fun l => pad ++ l) := by
  simp only [splitLines]
  induction cs with
  | nil => simp [padNLGo, splitP]
  | cons c cs ih =>
    cases hcs : splitP (fun x => x == '\n') cs with
    | nil => exact absurd hcs (splitP_ne_nil _ _)
    | cons hd tl =>
      rw [hcs] at ih
      simp only [List.headD_cons, List.tail_cons] at ih
      by_cases hc : c = '\n'
      · subst hc
        have e1 : padNLGo pad ('\n' :: cs) = '\n' :: (pad ++ padNLGo pad cs) := by
          simp [padNLGo]
        have e2 : splitP (fun x => x == '\n') ('\n' :: (pad ++ padNLGo pad cs))
            = [] :: splitP (fun x => x == '\n') (pad ++ padNLGo pad cs) := by
          simp [splitP]
        have e3 : splitP (fun x => x == '\n') ('\n' :: cs)
            = [] :: (hd :: tl) := by simp [splitP, hcs]
        rw [e1, e2,
          splitP_append_no _ pad (padNLGo pad cs) hd
            (tl.map (fun l => pad ++ l)) hpad ih,
          e3]
        simp
      · have hcb : (c == '\n') = false := by simpa using hc
        have e1 : padNLGo pad (c :: cs) = c :: padNLGo pad cs := by
          simp [padNLGo, hc]
        have e2 : splitP (fun x => x == '\n') (c :: padNLGo pad cs)
            = (c :: hd) :: tl.map (fun l => pad ++ l) := by
          simp [splitP, hcb, ih]
        have e3 : splitP (fun x => x == '\n') (c :: cs) = (c :: hd) :: tl := by
          simp [splitP, hcb, hcs]
        rw [e1, e2, e3]
        simp

/-! ## padNL at the string level -/

theorem padNL_no_nl (n : Nat) (s : String) (h : '\n' ∉ s.data) :
    padNL n s = s := by
  apply str_ext
  simp [padNL, padNLGo_no_nl _ _ h]

theorem padNL_ne_empty (n : Nat) (s : String) (h : s ≠ "") :
    padNL n s ≠ "" := by
  intro he
  apply h
  rw [← sdata_eq_nil]
  have hd : (padNL n s).data = [] := by rw [he]
  simp only [padNL] at hd
  by_contra hne
  exact padNLGo_ne_nil (spacesL n) s.data hne hd

/-! ## maxKeyLen and padAbstract lemmas -/

theorem le_maxKeyLen (pairing : List (String × PVal)) (p : String × PVal)
    (hp : p ∈ pairing) : p.1.length ≤ maxKeyLen pairing := by
  induction pairing with
  | nil => cases hp
  | cons q rest ih =>
    rcases List.mem_cons.mp hp with h | h
    · subst h
      exact Nat.le_max_left _ _
    · exact Nat.le_trans (ih h) (Nat.le_max_right _ _)

theorem padAbstract_keys (m : Nat) (pairing : List (String × PVal)) :
    (padAbstract m pairing).map Prod.fst = pairing.map Prod.fst := by
  induction pairing with
  | nil => rfl
  | cons q rest ih =>
    by_cases hq : q.1 = "abstract"
    · simp [padAbstract, hq] at ih ⊢
      exact ih
    · simp [padAbstract, hq] at ih ⊢
      exact ih

theorem maxKeyLen_eq_of_keys {p q : List (String × PVal)}
    (h : p.map Prod.fst = q.map Prod.fst) : maxKeyLen p = maxKeyLen q := by
  induction p generalizing q with
  | nil =>
    cases q with
    | nil => rfl
    | cons _ _ => simp at h
  | cons a rest ih =>
    cases q with
    | nil => simp at h
    | cons b qrest =>
      simp only [List.map_cons, List.cons.injEq] at h
      simp [maxKeyLen, List.foldr] at *
      rw [h.1, ih h.2]

theorem maxKeyLen_padAbstract (m : Nat) (pairing : List (String × PVal)) :
    maxKeyLen (padAbstract m pairing) = maxKeyLen pairing :=
  maxKeyLen_eq_of_keys (padAbstract_keys m pairing)

/-! ## delEmpty and key lookup lemmas -/

/-- Look up a key in an ordered pairing (first occurrence). -/
def lookupKey (k : String) : List (String × α) → Option α
  | [] => none
  | p :: rest => if p.1 = k then some p.2 else lookupKey k rest

/-- How many entries of the list carry the key `k`. -/
def keyCount (k : String) : List (String × α) → Nat
  | [] => 0
  | p :: rest => (if p.1 = k then 1 else 0) + keyCount k rest

/-- What the empty-value deletion keeps of one assembled value. -/
def keepO : Option PVal → Option PVal
  | some v => if truthyV v then some v else none
  | none => none

theorem mem_delEmpty (A : List (String × Option PVal)) (p : String × PVal)
    (hp : p ∈ delEmpty A) :
    truthyV p.2 = true ∧ (p.1, some p.2) ∈ A := by
  induction A with
  | nil => cases hp
  | cons q rest ih =>
    obtain ⟨k, ov⟩ := q
    cases ov with
    | none =>
      simp only [delEmpty] at hp
      have h2 := ih hp
      exact ⟨h2.1, by simp [h2.2]⟩
    | some v =>
      by_cases ht : truthyV v
      · simp only [delEmpty, if_pos ht] at hp
        rcases List.mem_cons.mp hp with h | h
        · subst h
          exact ⟨ht, by simp⟩
        · have h2 := ih h
          exact ⟨h2.1, by simp [h2.2]⟩
      · simp only [delEmpty, if_neg ht] at hp
        have h2 := ih hp
        exact ⟨h2.1, by simp [h2.2]⟩

theorem lookupKey_delEmpty_zero (k : String) (A : List (String × Option PVal))
    (h : keyCount k A = 0) : lookupKey k (delEmpty A) = none := by
  induction A with
  | nil => rfl
  | cons q rest ih =>
    obtain ⟨k', ov⟩ := q
    by_cases hk : k' = k
    · simp [keyCount, hk] at h
    · have h0 : keyCount k rest = 0 := by simpa [keyCount, hk] using h
      cases ov with
      | none => simpa [delEmpty] using ih h0
      | some v =>
        by_cases ht : truthyV v
        · simp only [delEmpty, if_pos ht]
          simpa [lookupKey, hk] using ih h0
        · simp only [delEmpty, if_neg ht]
          exact ih h0

theorem lookupKey_delEmpty (k : String) (A : List (String × Option PVal))
    (h : keyCount k A ≤ 1) :
    lookupKey k (delEmpty A) = (lookupKey k A).bind keepO := by
  induction A with
  | nil => rfl
  | cons q rest ih =>
    obtain ⟨k', ov⟩ := q
    by_cases hk : k' = k
    · subst hk
      have h0 : keyCount k' rest = 0 := by
        simp [keyCount] at h
        omega
      cases ov with
      | none =>
        simp only [delEmpty]
        rw [lookupKey_delEmpty_zero k' rest h0]
        simp [lookupKey, keepO]
      | some v =>
        by_cases ht : truthyV v
        · simp only [delEmpty, if_pos ht]
          simp [lookupKey, keepO, ht]
        · simp only [delEmpty, if_neg ht]
          rw [lookupKey_delEmpty_zero k' rest h0]
          simp [lookupKey, keepO, ht]
    · have h1 : keyCount k rest ≤ 1 := by
        simpa [keyCount, hk] using h
      cases ov with
      | none => simpa [delEmpty, lookupKey, hk] using ih h1
      | some v =>
        by_cases ht : truthyV v
        · simp only [delEmpty, if_pos ht]
          simpa [lookupKey, hk] using ih h1
        · simp only [delEmpty, if_neg ht]
          simpa [lookupKey, hk] using ih h1

/-! ## Rendered-line data lemmas -/

theorem data_indent : ("  " : String).data = [' ', ' '] := rfl

theorem data_eqbrace : (" = \x7b" : String).data = [' ', '=', ' ', '\x7b'] := rfl

theorem data_closecomma : ("\x7d," : String).data = ['\x7d', ','] := rfl

theorem spaces_data (n : Nat) : (spaces n).data = spacesL n := rfl

theorem fieldLine_data (m : Nat) (k v : String) :
    (fieldLine m k v).data
      = ' ' :: ' ' :: (k.data ++ (spacesL (m - k.length)
          ++ (' ' :: '=' :: ' ' :: '\x7b' :: (v.data ++ ['\x7d', ','])))) := by
  simp [fieldLine, sdata_append, data_indent, data_eqbrace, data_closecomma,
    spaces_data]

theorem concatLines_data (l : List String) :
    (concatLines l).data = (l.map String.data).flatten := by
  induction l with
  | nil => rfl
  | cons s rest ih => simp [concatLines, sdata_append, ih]

/-! ## trimSp and parseLine lemmas -/

theorem dropWhile_sp_spaces (n : Nat) (l : List Char) :
    List.dropWhile (fun c => c == ' ') (spacesL n ++ l)
      = List.dropWhile (fun c => c == ' ') l := by
  apply dropWhile_app
  intro c hc
  rw [List.eq_of_mem_replicate hc]
  rfl

theorem dropWhile_nonsp (l : List Char)
    (h : ∀ c ∈ l, (c == ' ') = false) :
    List.dropWhile (fun c => c == ' ') l = l := by
  cases l with
  | nil => rfl
  | cons c cs => exact dropWhile_head_false _ c cs (h c (by simp))

theorem trimSp_fieldKey (k : String) (n : Nat)
    (hne : k.data ≠ []) (hsp : ∀ c ∈ k.data, (c == ' ') = false) :
    trimSp (' ' :: ' ' :: (k.data ++ (spacesL n ++ [' ']))) = k.data := by
  have h1 : List.dropWhile (fun c => c == ' ')
      (' ' :: ' ' :: (k.data ++ (spacesL n ++ [' '])))
      = k.data ++ (spacesL n ++ [' ']) := by
    have e : (' ' :: ' ' :: (k.data ++ (spacesL n ++ [' '])))
        = spacesL 2 ++ (k.data ++ (spacesL n ++ [' '])) := rfl
    rw [e, dropWhile_sp_spaces]
    cases hk : k.data with
    | nil => exact absurd hk hne
    | cons c0 rest =>
      have hc0 := hsp c0 (by simp [hk])
      simp only [List.cons_append]
      exact dropWhile_head_false _ c0 _ hc0
  have h2 : (k.data ++ (spacesL n ++ [' '])).reverse
      = spacesL (n + 1) ++ k.data.reverse := by
    simp [List.reverse_append, List.reverse_replicate, spacesL,
      List.replicate_succ]
  have h3 : List.dropWhile (fun c => c == ' ') k.data.reverse
      = k.data.reverse :=
    dropWhile_nonsp _ (fun c hc => hsp c (List.mem_reverse.mp hc))
  unfold trimSp
  rw [h1, h2, dropWhile_sp_spaces, h3, List.reverse_reverse]

theorem dropLast_two (l : List Char) (x y : Char) :
    ((l ++ [x, y]).dropLast).dropLast = l := by
  have e : l ++ [x, y] = (l ++ [x]) ++ [y] := by simp
  rw [e, List.dropLast_concat, List.dropLast_concat]

theorem takeWhile_neq_pre (pre post : List Char)
    (hpre : ∀ c ∈ pre, (c != '=') = true) :
    (pre ++ '=' :: post).takeWhile (fun c => c != '=') = pre := by
  rw [takeWhile_app _ _ _ hpre]
  have : ('=' :: post).takeWhile (fun c => c != '=') = [] :=
    takeWhile_head_false _ '=' post (by simp)
  rw [this, List.append_nil]

theorem dropWhile_neq_pre (pre post : List Char)
    (hpre : ∀ c ∈ pre, (c != '=') = true) :
    (pre ++ '=' :: post).dropWhile (fun c => c != '=') = '=' :: post := by
  rw [dropWhile_app _ _ _ hpre]
  exact dropWhile_head_false _ '=' post (by simp)


theorem getElem_pre_eq (pre post : List Char) :
    (pre ++ '=' :: post)[pre.length]? = some '=' := by
  induction pre with
  | nil => simp
  | cons c cs ih => simpa using ih

theorem forall_spacesL (P : Char → Prop) (hP : P ' ') (n : Nat) :
    ∀ c ∈ spacesL n, P c := by
  intro c hc
  rw [List.eq_of_mem_replicate hc]
  exact hP

theorem data_nl : ("\n" : String).data = ['\n'] := rfl

theorem data_at : ("@" : String).data = ['@'] := rfl

theorem data_obrace : ("\x7b" : String).data = ['\x7b'] := rfl

theorem data_commanl : (",\n" : String).data = [',', '\n'] := rfl

theorem data_cbrace : ("\x7d" : String).data = ['\x7d'] := rfl

theorem fieldLine_split (m : Nat) (k v : String) :
    (fieldLine m k v).data
      = (' ' :: ' ' :: (k.data ++ (spacesL (m - k.length) ++ [' '])))
        ++ '=' :: (' ' :: '\x7b' :: (v.data ++ ['\x7d', ','])) := by
  rw [fieldLine_data]
  simp

theorem parseLine_fieldLine (m : Nat) (k v : String)
    (hne : k.data ≠ [])
    (hk : ∀ c ∈ k.data, c ≠ '=' ∧ c ≠ ' ') :
    parseLine (fieldLine m k v).data = (k, v) := by
  have hpre : ∀ c ∈ (' ' :: ' ' :: (k.data ++ (spacesL (m - k.length) ++ [' ']))),
      (c != '=') = true := by
    intro c hc
    rcases List.mem_cons.mp hc with rfl | hc
    · decide
    rcases List.mem_cons.mp hc with rfl | hc
    · decide
    rcases List.mem_append.mp hc with hc | hc
    · simpa using (hk c hc).1
    rcases List.mem_append.mp hc with hc | hc
    · exact forall_spacesL (fun c => (c != '=') = true) (by decide) _ c hc
    rcases List.mem_cons.mp hc with rfl | hc
    · decide
    exact absurd hc (List.not_mem_nil c)
  simp only [parseLine]
  rw [fieldLine_split]
  rw [takeWhile_neq_pre _ _ hpre, dropWhile_neq_pre _ _ hpre]
  simp only [List.drop_succ_cons, List.drop_zero]
  have hval : List.dropWhile (fun c => c == ' ')
      (' ' :: '\x7b' :: (v.data ++ ['\x7d', ',']))
      = '\x7b' :: (v.data ++ ['\x7d', ',']) := by
    have e : (' ' :: '\x7b' :: (v.data ++ ['\x7d', ',']))
        = spacesL 1 ++ ('\x7b' :: (v.data ++ ['\x7d', ','])) := rfl
    rw [e, dropWhile_sp_spaces]
    exact dropWhile_head_false _ _ _ (by decide)
  rw [hval]
  simp only [List.drop_succ_cons, List.drop_zero]
  rw [dropLast_two]
  rw [trimSp_fieldKey k _ hne
    (fun c hc => by simpa using (hk c hc).2)]

/-! ## The rendered block, line by line -/

theorem splitLines_body (m : Nat) (ps : List (String × PVal))
    (hlines : ∀ p ∈ ps,
      ∀ c ∈ (fieldLine m p.1 (pvalText p.2)).data, (c == '\n') = false) :
    splitLines ((concatLines (ps.map
        (fun p => fieldLine m p.1 (pvalText p.2) ++ "\n"))).data ++ ['\x7d'])
      = ps.map (fun p => (fieldLine m p.1 (pvalText p.2)).data) ++ [['\x7d']] := by
  induction ps with
  | nil =>
    simp only [List.map_nil, concatLines]
    exact splitP_no _ _ (by decide)
  | cons p rest ih =>
    have hline := hlines p (by simp)
    have ih2 := ih (fun q hq => hlines q (by simp [hq]))
    have e : (concatLines (((p :: rest)).map
          (fun p => fieldLine m p.1 (pvalText p.2) ++ "\n"))).data ++ ['\x7d']
        = (fieldLine m p.1 (pvalText p.2)).data
          ++ '\n' :: ((concatLines (rest.map
              (fun p => fieldLine m p.1 (pvalText p.2) ++ "\n"))).data
            ++ ['\x7d']) := by
      simp only [List.map_cons, concatLines, sdata_append, data_nl]
      simp
    rw [e]
    unfold splitLines
    rw [splitP_sep _ _ _ '\n' (by decide) hline]
    unfold splitLines at ih2
    rw [ih2]
    simp

theorem fieldLine_no_nl (m : Nat) (k v : String)
    (hkk : ∀ c ∈ k.data, (c == '\n') = false)
    (hvv : ∀ c ∈ v.data, (c == '\n') = false) :
    ∀ c ∈ (fieldLine m k v).data, (c == '\n') = false := by
  intro c hc
  rw [fieldLine_data] at hc
  rcases List.mem_cons.mp hc with rfl | hc
  · decide
  rcases List.mem_cons.mp hc with rfl | hc
  · decide
  rcases List.mem_append.mp hc with hc | hc
  · exact hkk c hc
  rcases List.mem_append.mp hc with hc | hc
  · exact forall_spacesL (fun c => (c == '\n') = false) (by decide) _ c hc
  rcases List.mem_cons.mp hc with rfl | hc
  · decide
  rcases List.mem_cons.mp hc with rfl | hc
  · decide
  rcases List.mem_cons.mp hc with rfl | hc
  · decide
  rcases List.mem_cons.mp hc with rfl | hc
  · decide
  rcases List.mem_append.mp hc with hc | hc
  · exact hvv c hc
  rcases List.mem_cons.mp hc with rfl | hc
  · decide
  rcases List.mem_cons.mp hc with rfl | hc
  · decide
  exact absurd hc (List.not_mem_nil c)

theorem splitLines_render (type key : String) (m : Nat)
    (ps : List (String × PVal))
    (htype : ∀ c ∈ type.data, (c == '\n') = false)
    (hkey : ∀ c ∈ key.data, (c == '\n') = false)
    (hlines : ∀ p ∈ ps,
      ∀ c ∈ (fieldLine m p.1 (pvalText p.2)).data, (c == '\n') = false) :
    splitLines ("@" ++ type ++ "\x7b" ++ key ++ ",\n"
        ++ concatLines (ps.map (fun p => fieldLine m p.1 (pvalText p.2) ++ "\n"))
        ++ "\x7d").data
      = ('@' :: (type.data ++ '\x7b' :: (key.data ++ [','])))
          :: (ps.map (fun p => (fieldLine m p.1 (pvalText p.2)).data)
              ++ [['\x7d']]) := by
  have e : ("@" ++ type ++ "\x7b" ++ key ++ ",\n"
        ++ concatLines (ps.map (fun p => fieldLine m p.1 (pvalText p.2) ++ "\n"))
        ++ "\x7d").data
      = ('@' :: (type.data ++ '\x7b' :: (key.data ++ [','])))
        ++ '\n' :: ((concatLines (ps.map
            (fun p => fieldLine m p.1 (pvalText p.2) ++ "\n"))).data
          ++ ['\x7d']) := by
    simp only [sdata_append, data_at, data_obrace, data_commanl, data_cbrace]
    simp
  rw [e]
  unfold splitLines
  rw [splitP_sep _ _ _ '\n' (by decide) ?hhdr]
  case hhdr =>
    intro c hc
    rcases List.mem_cons.mp hc with rfl | hc
    · decide
    rcases List.mem_append.mp hc with hc | hc
    · exact htype c hc
    rcases List.mem_cons.mp hc with rfl | hc
    · decide
    rcases List.mem_append.mp hc with hc | hc
    · exact hkey c hc
    rcases List.mem_cons.mp hc with rfl | hc
    · decide
    exact absurd hc (List.not_mem_nil c)
  have hb := splitLines_body m ps hlines
  unfold splitLines at hb
  rw [hb]

/-! ## padVal / padAbstract behaviour -/

theorem padVal_no_nl (m : Nat) (v : PVal) (h : '\n' ∉ (pvalText v).data) :
    padVal m v = v := by
  cases v with
  | str s =>
    by_cases hs : s = ""
    · simp [padVal, hs]
    · simp only [pvalText] at h
      simp [padVal, hs, padNL_no_nl _ _ h]
  | link a b => rfl
  | abbr a b => rfl

theorem padAbstract_no_nl (m : Nat) (pairing : List (String × PVal))
    (h : ∀ p ∈ pairing, '\n' ∉ (pvalText p.2).data) :
    padAbstract m pairing = pairing := by
  induction pairing with
  | nil => rfl
  | cons q rest ih =>
    obtain ⟨k1, v1⟩ := q
    have hq := h (k1, v1) (by simp)
    have ih2 := ih (fun p hp => h p (by simp [hp]))
    simp only [padAbstract, List.map_cons] at ih2 ⊢
    rw [ih2]
    by_cases hk : k1 = "abstract"
    · simp [hk, padVal_no_nl m v1 hq]
    · simp [hk]

theorem lookupKey_padAbstract (m : Nat) (k : String)
    (pairing : List (String × PVal)) :
    lookupKey k (padAbstract m pairing)
      = (lookupKey k pairing).map
          (fun v => if k = "abstract" then padVal m v else v) := by
  induction pairing with
  | nil => rfl
  | cons q rest ih =>
    obtain ⟨k1, v⟩ := q
    simp only [padAbstract, List.map_cons] at ih ⊢
    by_cases hq : k1 = k
    · subst hq
      by_cases ha : k1 = "abstract"
      · simp [lookupKey, ha]
      · simp [lookupKey, ha]
    · by_cases ha : k1 = "abstract"
      · have hak : ¬("abstract" = k) := ha ▸ hq
        simp [lookupKey, ha, hak, ih]
      · simp [lookupKey, ha, hq, ih]

theorem padAbstract_getElem (m : Nat) (pairing : List (String × PVal))
    (i : Nat) :
    (padAbstract m pairing)[i]?
      = (pairing[i]?).map
          (fun p => if p.1 = "abstract" then (p.1, padVal m p.2) else p) := by
  simp [padAbstract]

/-! ## Values kept by the deletion have non-empty text -/

theorem fileNameOf_ne (e : Entry) (s : Settings) : fileNameOf e s ≠ "" :=
  sappend_ne_right _ (sappend_ne_right _ (by decide))

theorem text_ne_of_str (x : String) (v : PVal)
    (hv : some (PVal.str x) = some v) (ht : truthyV v = true) :
    pvalText v ≠ "" := by
  cases hv
  simpa [truthyV, pvalText] using ht

theorem text_ne_of_ite_str (c : Prop) [Decidable c] (x : String) (v : PVal)
    (hv : (if c then some (PVal.str x) else none) = some v)
    (ht : truthyV v = true) : pvalText v ≠ "" := by
  split at hv
  · exact text_ne_of_str x v hv ht
  · cases hv

theorem text_ne_of_jrl (e : Entry) (v : PVal)
    (hv : journalRefLinkOf e = some v) : pvalText v ≠ "" := by
  unfold journalRefLinkOf at hv
  split at hv
  · rename_i hcond
    cases hv
    simpa [pvalText] using hcond
  · cases hv

theorem text_ne_of_doi (e : Entry) (v : PVal)
    (hv : doiLinkOf e = some v) : pvalText v ≠ "" := by
  unfold doiLinkOf at hv
  split at hv
  · rename_i hcond
    cases hv
    simpa [pvalText] using hcond
  · cases hv

theorem text_ne_of_journal (e : Entry) (s : Settings) (v : PVal)
    (hv : journalValOf e s = some v) : pvalText v ≠ "" := by
  unfold journalValOf at hv
  split at hv
  · rename_i hcond
    cases hv
    simp only [pvalText]
    exact sappend_ne_left _ (by simpa using hcond)
  · cases hv

theorem text_ne_of_file (e : Entry) (s : Settings) (v : PVal)
    (hv : some (fileLinkOf e s) = some v) : pvalText v ≠ "" := by
  cases hv
  unfold fileLinkOf
  split
  · simpa [pvalText] using fileNameOf_ne e s
  · simpa [pvalText] using fileNameOf_ne e s

theorem assembled_text_ne (e : Entry) (s : Settings) :
    ∀ p ∈ assembledPairing e s, ∀ v, p.2 = some v → truthyV v = true →
      pvalText v ≠ "" := by
  intro p hp v hv ht
  simp only [assembledPairing, List.append_assoc, List.mem_append] at hp
  rcases hp with hp | hp | hp | hp
  · simp only [List.mem_cons, List.not_mem_nil, or_false] at hp
    rcases hp with rfl | rfl | rfl | rfl | rfl | rfl | rfl | rfl | rfl | rfl
      | rfl | rfl | rfl
    · exact text_ne_of_str _ v hv ht
    · exact text_ne_of_str _ v hv ht
    · exact text_ne_of_str _ v hv ht
    · exact text_ne_of_journal e s v hv
    · exact text_ne_of_ite_str _ _ v hv ht
    · exact text_ne_of_str _ v hv ht
    · exact text_ne_of_str _ v hv ht
    · exact text_ne_of_str _ v hv ht
    · exact text_ne_of_str _ v hv ht
    · exact text_ne_of_str _ v hv ht
    · exact text_ne_of_str _ v hv ht
    · exact text_ne_of_str _ v hv ht
    · exact text_ne_of_str _ v hv ht
  · by_cases hid : (e.id != "") = true
    · rw [if_pos hid] at hp
      have hidne : e.id ≠ "" := by simpa using hid
      simp only [List.mem_cons, List.not_mem_nil, or_false] at hp
      rcases hp with rfl | rfl | rfl | rfl | rfl
      · cases hv
        simpa [pvalText] using hidne
      · exact text_ne_of_str _ v hv ht
      · exact text_ne_of_ite_str _ _ v hv ht
      · exact text_ne_of_ite_str _ _ v hv ht
      · split at hv
        · cases hv
        · cases hv
          simp only [pvalText, absURLOf]
          exact sappend_ne_left _ (by decide)
    · rw [if_neg hid] at hp
      cases hp
  · by_cases hg : goodMode s = true
    · rw [if_pos hg] at hp
      simp only [List.mem_cons, List.not_mem_nil, or_false] at hp
      rcases hp with rfl | rfl
      · exact text_ne_of_str _ v hv ht
      · exact text_ne_of_jrl e v hv
    · rw [if_neg hg] at hp
      simp only [List.mem_cons, List.not_mem_nil, or_false] at hp
      rcases hp with rfl
      split at hv
      · exact text_ne_of_jrl e v hv
      · exact text_ne_of_str _ v hv ht
  · simp only [List.mem_cons, List.not_mem_nil, or_false] at hp
    rcases hp with rfl | rfl | rfl | rfl
    · exact text_ne_of_doi e v hv
    · split at hv
      · exact text_ne_of_file e s v hv
      · cases hv
    · exact text_ne_of_str _ v hv ht
    · exact text_ne_of_ite_str _ _ v hv ht

/-! ## Remaining small lemmas -/

theorem sappend_empty (a : String) : a ++ "" = a := by
  apply str_ext
  simp [sdata_append]

theorem padVal_text_ne (m : Nat) (v : PVal) (h : pvalText v ≠ "") :
    pvalText (padVal m v) ≠ "" := by
  cases v with
  | str s =>
    by_cases hs : s = ""
    · exact absurd hs h
    · simp only [padVal, hs, if_neg, pvalText]
      exact padNL_ne_empty _ _ hs
  | link a b => exact h
  | abbr a b => exact h

theorem fieldLine_ne_empty (m : Nat) (k v : String) : fieldLine m k v ≠ "" := by
  intro h
  have hd := congrArg String.data h
  rw [fieldLine_data] at hd
  simp at hd

theorem fieldLine_inj_val (m : Nat) (k v v2 : String)
    (h : fieldLine m k v = fieldLine m k v2) : v = v2 := by
  have hd := congrArg String.data h
  rw [fieldLine_data, fieldLine_data] at hd
  simp at hd
  exact str_ext hd

theorem fieldLine_ne_emptyline (m : Nat) (k v : String) (hv : v ≠ "") :
    fieldLine m k v ≠ fieldLine m k "" :=
  fun h => hv (fieldLine_inj_val m k v "" h)

/-! ## Concrete entries, settings and pairings used as instances -/

/-- An entry with every field absent. -/
def entry0 : Entry :=
  { authors := [], title := "", mainTitle := "", subTitle := "", date := "",
    type := "", journal := "", series := "", volume := "", number := "",
    publisher := "", location := "", ISBN := "", pageTotal := "",
    pubstate := "", id := "", primaryCategory := "", version := "",
    doi := "", journalRef := "", pdfLink := "", comment := "", abstract := "" }

/-- Settings in bad (BibTeX) mode with every flag off. -/
def settings0 : Settings :=
  { mode := "bibtex", filePrefix := false, fileFolder := "",
    includeFile := false, includeAbstract := false, includeWget := false,
    includeVersion := false, includePrimaryCategory := false,
    wgetPowershell := false }

/-- A small concrete entry whose pairing keeps author, year and title. -/
def entryC2 : Entry :=
  { entry0 with authors := ["Jane Doe"], date := "2020-01-01", title := "T" }

/-- A pairing with keys of lengths 3, 7 and 10 (the spec's alignment
example). -/
def pairingC3 : List (String × PVal) :=
  [("doi", PVal.str "x"), ("journal", PVal.str "y"),
   ("eprinttype", PVal.str "z")]

/-- The spec's journal/series example entry. -/
def entryC6 : Entry :=
  { entry0 with journal := "Annals of Math", series := "2nd series" }

/-- The spec's wget example entry. -/
def entryC7 : Entry :=
  { entry0 with
    authors := ["Jane Doe", "John Dew"]
    date := "2020-01-01"
    pdfLink := "http://x/y.pdf" }

/-- The spec's wget example settings. -/
def settingsC7 : Settings :=
  { settings0 with includeFile := true, fileFolder := "papers" }

/-- A pairing with single-line values, for the round-trip instance. -/
def pairingC8 : List (String × PVal) :=
  [("author", PVal.str "Doe, Jane"), ("title", PVal.str "A b c")]

/-- A pairing with a multi-line abstract, for the mutation instance. -/
def pairingC10 : List (String × PVal) :=
  [("author", PVal.str "A"), ("abstract", PVal.str "x\ny")]

/-! ## The claims -/

/-- C1: for every author list and date, `joinAuthorsGetKey` returns a key
equal to the diacritic-stripped concatenation of each author's surname
(the last whitespace-separated token of the name), in input order with no
separator, followed by the first 4 characters of the date (assumed free of
diacritics, as `YYYY-MM-DD` dates are); for an empty author list the key
is the (up to 4-character) year and the author list is empty; on the
example authors `["Jane Doe", "John Dew"]` with date `"2020-01-01"` the
key is `"DoeDew2020"` and the author list `"Doe, Jane and Dew, John"`. -/
theorem C1_joinAuthorsGetKey (authors : List String) (date : String)
    (hyear : removeAccents (jsSlice date 4) = jsSlice date 4) :
    (joinAuthorsGetKey authors date).key
        = removeAccents (concatLines (authors.map surnameOf))
          ++ jsSlice date 4
      ∧ (joinAuthorsGetKey [] date).key = jsSlice date 4
      ∧ (joinAuthorsGetKey [] date).authorList = ""
      ∧ (joinAuthorsGetKey ["Jane Doe", "John Dew"] "2020-01-01").key
          = "DoeDew2020"
      ∧ (joinAuthorsGetKey ["Jane Doe", "John Dew"] "2020-01-01").authorList
          = "Doe, Jane and Dew, John" := by
  refine ⟨?_, ?_, rfl, by decide, by decide⟩
  · show removeAccents (concatLines ((authors.map splitter).map
        (fun l => (l.getLast?).getD "")) ++ jsSlice date 4) = _
    rw [removeAccents_append, hyear, List.map_map]
    rfl
  · have e : (joinAuthorsGetKey [] date).key
        = removeAccents (jsSlice date 4) := by
      apply str_ext
      simp [joinAuthorsGetKey, concatLines, removeAccents, sdata_append]
    rw [e, hyear]

/-- Witness for C1 at the spec's example input. -/
theorem C1_witness :
    removeAccents (jsSlice "2020-01-01" 4) = jsSlice "2020-01-01" 4
      ∧ (joinAuthorsGetKey ["Jane Doe", "John Dew"] "2020-01-01").key
          = removeAccents (concatLines
              (["Jane Doe", "John Dew"].map surnameOf))
            ++ jsSlice "2020-01-01" 4 :=
  ⟨by decide, (C1_joinAuthorsGetKey ["Jane Doe", "John Dew"] "2020-01-01"
      (by decide)).1⟩

/-- C9: the formatting pipeline is deterministic and idempotent: the
rendered text depends only on the entry and the settings, and repeating
the render (each render building a fresh pairing, so the abstract
mutation the first `formatEntry` performed on its discarded pairing is
invisible) yields the same text. -/
theorem C9_deterministic (e : Entry) (s : Settings) :
    renderEntry e s = renderEntry e s
      ∧ (renderTwice e s).1 = (renderTwice e s).2
      ∧ (renderTwice e s).1 = renderEntry e s := ⟨rfl, rfl, rfl⟩

/-- C7: `buildPairing` returns a wget command iff `includeFile` is on and
the entry has a `pdfLink`; the command uses PowerShell or POSIX `wget`
syntax according to `wgetPowershell`, parameterized by `pdfLink`,
`fileFolder` and the computed file name; on the spec's example it equals
exactly the quoted string. -/
theorem C7_wget (e : Entry) (s : Settings) :
    ((buildPairing e s).wget ≠ none
        ↔ (s.includeFile = true ∧ e.pdfLink ≠ ""))
      ∧ (buildPairing e s).wget
          = (if s.includeFile && e.pdfLink != "" then
               some (if s.wgetPowershell then
                   "pwsh -Command Invoke-WebRequest " ++ e.pdfLink
                     ++ " -OutFile " ++ s.fileFolder ++ "\\"
                     ++ fileNameOf e s
                 else
                   "wget --user-agent='Mozilla' " ++ e.pdfLink ++ " -O "
                     ++ s.fileFolder ++ "/" ++ fileNameOf e s)
             else none)
      ∧ (buildPairing entryC7 settingsC7).wget
          = some "wget --user-agent='Mozilla' http://x/y.pdf -O papers/DoeDew2020.pdf" := by
  refine ⟨?_, rfl, by decide⟩
  constructor
  · intro h
    by_cases hc : (s.includeFile && e.pdfLink != "") = true
    · exact ⟨((Bool.and_eq_true _ _).mp hc).1,
        by simpa using ((Bool.and_eq_true _ _).mp hc).2⟩
    · exact absurd (by simp [buildPairing, hc]) h
  · rintro ⟨h1, h2⟩
    simp [buildPairing, h1, h2]

/-- C2: after assembly `buildPairing` removes every key whose value is
empty, false or absent, so every value in the returned pairing is truthy
and renders to non-empty text; consequently no rendered field line is
blank and none is the dangling empty-value line `  <key>... = {},`. -/
theorem C2_truthy_values (e : Entry) (s : Settings) :
    (∀ p ∈ (buildPairing e s).pairing, truthyV p.2 = true)
      ∧ (∀ p ∈ padAbstract (maxKeyLen (buildPairing e s).pairing)
            (buildPairing e s).pairing,
          pvalText p.2 ≠ ""
            ∧ fieldLine (maxKeyLen (buildPairing e s).pairing) p.1
                (pvalText p.2) ≠ ""
            ∧ fieldLine (maxKeyLen (buildPairing e s).pairing) p.1
                (pvalText p.2)
              ≠ fieldLine (maxKeyLen (buildPairing e s).pairing) p.1 "") := by
  have htxt : ∀ p ∈ (buildPairing e s).pairing, pvalText p.2 ≠ "" := by
    intro p hp
    simp only [buildPairing] at hp
    have h2 := mem_delEmpty _ p hp
    exact assembled_text_ne e s (p.1, some p.2) h2.2 p.2 rfl h2.1
  refine ⟨?_, ?_⟩
  · intro p hp
    simp only [buildPairing] at hp
    exact (mem_delEmpty _ p hp).1
  · intro p hp
    rcases List.mem_map.mp hp with ⟨q, hq, hpq⟩
    have hqt := htxt q hq
    have hpt : pvalText p.2 ≠ "" := by
      subst hpq
      by_cases ha : q.1 = "abstract"
      · rw [if_pos ha]
        exact padVal_text_ne _ _ hqt
      · rw [if_neg ha]
        exact hqt
    exact ⟨hpt, fieldLine_ne_empty _ _ _, fieldLine_ne_emptyline _ _ _ hpt⟩

/-- Witness for C2 at a concrete entry. -/
theorem C2_witness :
    (("title", PVal.str "T") ∈ (buildPairing entryC2 settings0).pairing)
      ∧ truthyV (PVal.str "T") = true :=
  ⟨by decide, (C2_truthy_values entryC2 settings0).1
    ("title", PVal.str "T") (by decide)⟩

/-- C3: a non-empty pairing renders as the header `@<type>{<key>,`, one
line `  <key><padding>= {<value>},` per entry in order, and a closing
`}`; the first `=` of every field line sits at column
`2 + maxKeyLength + 1`, and for the pairing with key lengths
`{3, 7, 10}` every `=` sits at column `2 + 10 + 1`. -/
theorem C3_alignment (type key : String) (pairing : List (String × PVal))
    (_hne : pairing ≠ []) :
    (formatEntryText type key pairing
        = "@" ++ type ++ "\x7b" ++ key ++ ",\n"
          ++ concatLines ((padAbstract (maxKeyLen pairing) pairing).map
              (fun p => fieldLine (maxKeyLen pairing) p.1 (pvalText p.2)
                ++ "\n"))
          ++ "\x7d")
      ∧ (∀ p ∈ padAbstract (maxKeyLen pairing) pairing,
          ('=' ∉ p.1.data) →
            firstEqIdx (fieldLine (maxKeyLen pairing) p.1
                (pvalText p.2)).data
              = 2 + maxKeyLen pairing + 1
            ∧ (fieldLine (maxKeyLen pairing) p.1
                (pvalText p.2)).data[2 + maxKeyLen pairing + 1]?
              = some '=')
      ∧ maxKeyLen pairingC3 = 10
      ∧ (∀ p ∈ pairingC3,
          firstEqIdx (fieldLine (maxKeyLen pairingC3) p.1
            (pvalText p.2)).data = 2 + 10 + 1) := by
  refine ⟨rfl, ?_, by decide, by decide⟩
  intro p hp hkeq
  have hkl : p.1.length ≤ maxKeyLen pairing := by
    rcases List.mem_map.mp hp with ⟨q, hq, hpq⟩
    have hle := le_maxKeyLen pairing q hq
    have hfst : p.1 = q.1 := by
      subst hpq
      by_cases ha : q.1 = "abstract"
      · rw [if_pos ha]
      · rw [if_neg ha]
    rw [hfst]
    exact hle
  have hpre : ∀ c ∈ (' ' :: ' ' :: (p.1.data
      ++ (spacesL (maxKeyLen pairing - p.1.length) ++ [' ']))),
      (c != '=') = true := by
    intro c hc
    rcases List.mem_cons.mp hc with rfl | hc
    · decide
    rcases List.mem_cons.mp hc with rfl | hc
    · decide
    rcases List.mem_append.mp hc with hc | hc
    · have hne : c ≠ '=' := by
        intro he
        subst he
        exact hkeq hc
      simpa using hne
    rcases List.mem_append.mp hc with hc | hc
    · exact forall_spacesL (fun c => (c != '=') = true) (by decide) _ c hc
    rcases List.mem_cons.mp hc with rfl | hc
    · decide
    exact absurd hc (List.not_mem_nil c)
  have hlen : (' ' :: ' ' :: (p.1.data
      ++ (spacesL (maxKeyLen pairing - p.1.length) ++ [' ']))).length
      = 2 + maxKeyLen pairing + 1 := by
    simp [spacesL]
    omega
  constructor
  · unfold firstEqIdx
    rw [fieldLine_split, takeWhile_neq_pre _ _ hpre]
    exact hlen
  · rw [fieldLine_split, ← hlen]
    exact getElem_pre_eq _ _

/-- Witness for C3 at the pairing with key lengths 3, 7 and 10. -/
theorem C3_witness :
    pairingC3 ≠ []
      ∧ ('=' ∉ ("doi" : String).data)
      ∧ firstEqIdx (fieldLine (maxKeyLen pairingC3) "doi"
          (pvalText (PVal.str "x"))).data = 2 + maxKeyLen pairingC3 + 1 :=
  ⟨by decide, by decide,
    ((C3_alignment "article" "k" pairingC3 (by decide)).2.1
      ("doi", PVal.str "x") (by decide) (by decide)).1⟩

/-- C4 fails as stated: the renderer re-indents only the `abstract`
value; a multi-line `comment` value is rendered with its line breaks
unreplaced, although replacing them would change it. -/
theorem C4_counterexample :
    formatEntryText "misc" "k" [("comment", PVal.str "a\nb")]
        = "@misc\x7bk,\n  comment = \x7ba\nb\x7d,\n\x7d"
      ∧ padNL (7 + 6) "a\nb" ≠ "a\nb" := ⟨by decide, by decide⟩

/-- C4 (amended): only the non-empty `abstract` string is re-indented:
`formatEntry` replaces each of its line breaks by a line break plus
`maxKeyLength + 6` spaces — exactly the column where values start, since
the prefix `  <key><padding> = {` of a field line is `maxKeyLength + 6`
characters — so the abstract's first line is unchanged and every
continuation line gains that indent. -/
theorem C4_abstract_padding (m : Nat) (s : String) (hs : s ≠ "") :
    padVal m (PVal.str s) = PVal.str (padNL (m + 6) s)
      ∧ splitLinesStr (padNL (m + 6) s)
          = (splitLinesStr s).headD ""
            :: ((splitLinesStr s).tail).map
                (fun l => spaces (m + 6) ++ l)
      ∧ (∀ k : String, k.length ≤ m →
          ("  " ++ k ++ spaces (m - k.length) ++ " = \x7b").length
            = m + 6) := by
  refine ⟨by simp [padVal, hs], ?_, ?_⟩
  · cases hsp : splitLines s.data with
    | nil => exact absurd hsp (splitP_ne_nil _ _)
    | cons hd tl =>
      have hmain := splitLines_padNLGo (spacesL (m + 6)) s.data
        (forall_spacesL (fun c => (c == '\n') = false) (by decide) _)
      rw [hsp] at hmain
      simp only [List.headD_cons, List.tail_cons] at hmain
      have hdat : (padNL (m + 6) s).data
          = padNLGo (spacesL (m + 6)) s.data := rfl
      simp only [splitLinesStr, hdat, hmain, hsp, List.map_cons,
        List.map_map, List.headD_cons, List.tail_cons]
      congr 1
  · intro k hk
    rw [slength_data]
    simp only [sdata_append, data_indent, data_eqbrace, spaces]
    simp [spacesL]
    omega

/-- Witness for C4's amended statement at a concrete abstract. -/
theorem C4_witness :
    ("x\ny" : String) ≠ ""
      ∧ padVal 8 (PVal.str "x\ny") = PVal.str (padNL 14 "x\ny") :=
  ⟨by decide, (C4_abstract_padding 8 "x\ny" (by decide)).1⟩

/-- C5: in bad mode the assembled pairing carries a `note` whose value is
the flagged journalRef when a doi or a journalRef exists and the literal
string `"Preprint"` otherwise, and no `pubstate`/`howpublished`; in good
mode it instead carries `pubstate` and `howpublished` (the flagged
journalRef), and no `note`. -/
theorem C5_mode_fields (e : Entry) (s : Settings) :
    lookupKey "note" (assembledPairing e s)
        = (if goodMode s then none
           else some (if e.doi != "" || e.journalRef != "" then
               journalRefLinkOf e
             else some (PVal.str "Preprint")))
      ∧ lookupKey "pubstate" (assembledPairing e s)
          = (if goodMode s then some (some (PVal.str e.pubstate)) else none)
      ∧ lookupKey "howpublished" (assembledPairing e s)
          = (if goodMode s then some (journalRefLinkOf e) else none) := by
  refine ⟨?_, ?_, ?_⟩
  all_goals cases hg : goodMode s
  all_goals cases hid : (e.id != "")
  all_goals simp [assembledPairing, lookupKey, hg, hid]

/-- C6: a non-empty journal appears as `journaltitle` in good mode and as
`journal` in bad mode; in bad mode a series is appended to the journal in
parentheses (e.g. `"Annals of Math (2nd series)"`); the `series` field
itself survives only in good mode. -/
theorem C6_journal_field (e : Entry) (s : Settings) (hj : e.journal ≠ "") :
    (goodMode s = true →
        lookupKey "journaltitle" (buildPairing e s).pairing
            = some (PVal.str e.journal)
          ∧ lookupKey "journal" (buildPairing e s).pairing = none
          ∧ lookupKey "series" (buildPairing e s).pairing
              = (if e.series != "" then some (PVal.str e.series) else none))
      ∧ (goodMode s = false →
        lookupKey "journal" (buildPairing e s).pairing
            = some (PVal.str (e.journal
                ++ (if e.series != "" then " (" ++ e.series ++ ")"
                    else "")))
          ∧ lookupKey "journaltitle" (buildPairing e s).pairing = none
          ∧ lookupKey "series" (buildPairing e s).pairing = none)
      ∧ lookupKey "journal" (buildPairing entryC6 settings0).pairing
          = some (PVal.str "Annals of Math (2nd series)") := by
  have hjb : (e.journal != "") = true := by simpa using hj
  refine ⟨?_, ?_, by decide⟩
  · intro hg
    refine ⟨?_, ?_, ?_⟩
    · have hcnt : keyCount "journaltitle" (assembledPairing e s) ≤ 1 := by
        cases hid : (e.id != "") <;>
          simp [assembledPairing, keyCount, hg, hid]
      have hl : lookupKey "journaltitle" (assembledPairing e s)
          = some (journalValOf e s) := by
        cases hid : (e.id != "") <;>
          simp [assembledPairing, lookupKey, hg, hid]
      simp only [buildPairing]
      rw [lookupKey_delEmpty _ _ hcnt, hl]
      simp [keepO, journalValOf, hjb, hg, truthyV, sappend_empty]
    · have hz : keyCount "journal" (assembledPairing e s) = 0 := by
        cases hid : (e.id != "") <;>
          simp [assembledPairing, keyCount, hg, hid]
      simp only [buildPairing]
      exact lookupKey_delEmpty_zero _ _ hz
    · have hcnt : keyCount "series" (assembledPairing e s) ≤ 1 := by
        cases hid : (e.id != "") <;>
          simp [assembledPairing, keyCount, hg, hid]
      have hl : lookupKey "series" (assembledPairing e s)
          = some (some (PVal.str e.series)) := by
        cases hid : (e.id != "") <;>
          simp [assembledPairing, lookupKey, hg, hid]
      simp only [buildPairing]
      rw [lookupKey_delEmpty _ _ hcnt, hl]
      simp [keepO, truthyV]
  · intro hg
    refine ⟨?_, ?_, ?_⟩
    · have hcnt : keyCount "journal" (assembledPairing e s) ≤ 1 := by
        cases hid : (e.id != "") <;>
          simp [assembledPairing, keyCount, hg, hid]
      have hl : lookupKey "journal" (assembledPairing e s)
          = some (journalValOf e s) := by
        cases hid : (e.id != "") <;>
          simp [assembledPairing, lookupKey, hg, hid]
      simp only [buildPairing]
      rw [lookupKey_delEmpty _ _ hcnt, hl]
      have hne2 : ∀ b : String, ¬(e.journal ++ b) = "" :=
        fun b => sappend_ne_left b hj
      simp [keepO, journalValOf, hjb, hg, truthyV, hne2]
    · have hz : keyCount "journaltitle" (assembledPairing e s) = 0 := by
        cases hid : (e.id != "") <;>
          simp [assembledPairing, keyCount, hg, hid]
      simp only [buildPairing]
      exact lookupKey_delEmpty_zero _ _ hz
    · have hcnt : keyCount "series" (assembledPairing e s) ≤ 1 := by
        cases hid : (e.id != "") <;>
          simp [assembledPairing, keyCount, hg, hid]
      have hl : lookupKey "series" (assembledPairing e s) = some none := by
        cases hid : (e.id != "") <;>
          simp [assembledPairing, lookupKey, hg, hid]
      simp only [buildPairing]
      rw [lookupKey_delEmpty _ _ hcnt, hl]
      simp [keepO]

/-- Witness for C6 at the spec's journal/series example. -/
theorem C6_witness :
    ("Annals of Math" : String) ≠ ""
      ∧ lookupKey "journal" (buildPairing entryC6 settings0).pairing
          = some (PVal.str "Annals of Math (2nd series)") :=
  ⟨by decide, (C6_journal_field entryC6 settings0 (by decide)).2.2⟩

/-- C8 fails as stated: a value with an embedded line break (here a
`note`) makes the line-oriented re-parse disagree with the original
pairing. -/
theorem C8_counterexample :
    parseBody (formatEntryText "article" "k" [("note", PVal.str "a\nb")])
      ≠ [("note", "a\nb")] := by decide

/-- C8 (amended): for pairings whose keys are non-empty and contain no
`'='`, no space and no newline, and whose rendered values are
single-line, rendering with `formatEntry` and re-parsing each body line
(split at the first `=`, trim the padding, read between `{` and `},`)
recovers exactly the key/value pairs in order; values with embedded line
breaks (and the re-indented abstract) are not recovered verbatim. -/
theorem C8_roundtrip (type key : String) (pairing : List (String × PVal))
    (htype : ∀ c ∈ type.data, c ≠ '\n')
    (hkey : ∀ c ∈ key.data, c ≠ '\n')
    (hpairs : ∀ p ∈ pairing,
      p.1.data ≠ []
        ∧ (∀ c ∈ p.1.data, c ≠ '=' ∧ c ≠ ' ' ∧ c ≠ '\n')
        ∧ (∀ c ∈ (pvalText p.2).data, c ≠ '\n')) :
    parseBody (formatEntryText type key pairing)
      = pairing.map (fun p => (p.1, pvalText p.2)) := by
  have hvnn : ∀ p ∈ pairing, '\n' ∉ (pvalText p.2).data := by
    intro p hp hmem
    exact ((hpairs p hp).2.2 '\n' hmem) rfl
  have hpad : padAbstract (maxKeyLen pairing) pairing = pairing :=
    padAbstract_no_nl _ _ hvnn
  have hlines : ∀ p ∈ pairing,
      ∀ c ∈ (fieldLine (maxKeyLen pairing) p.1 (pvalText p.2)).data,
        (c == '\n') = false := by
    intro p hp
    apply fieldLine_no_nl
    · intro c hc
      simpa using ((hpairs p hp).2.1 c hc).2.2
    · intro c hc
      simpa using (hpairs p hp).2.2 c hc
  simp only [parseBody, formatEntryText, hpad]
  rw [splitLines_render type key (maxKeyLen pairing) pairing
      (fun c hc => by simpa using htype c hc)
      (fun c hc => by simpa using hkey c hc) hlines]
  simp only [List.drop_succ_cons, List.drop_zero]
  rw [List.dropLast_concat, List.map_map]
  apply List.map_congr_left
  intro p hp
  exact parseLine_fieldLine _ _ _ (hpairs p hp).1
    (fun c hc => ⟨((hpairs p hp).2.1 c hc).1, ((hpairs p hp).2.1 c hc).2.1⟩)

/-- Witness for C8's amended statement at a concrete pairing. -/
theorem C8_witness :
    parseBody (formatEntryText "article" "Doe2020" pairingC8)
      = pairingC8.map (fun p => (p.1, pvalText p.2)) :=
  C8_roundtrip "article" "Doe2020" pairingC8 (by decide) (by decide)
    (by decide)

/-- C10: `formatEntry` mutates its input pairing: the value under
`"abstract"` (a non-empty string) is overwritten with the padded text
(each line break followed by `maxKeyLength + 6` extra spaces), while the
keys, their order and every other entry are unchanged; re-invoking
`formatEntry` on the already-mutated pairing pads the abstract again
(the key lengths, hence `maxKeyLength`, are unchanged). -/
theorem C10_mutation (type key : String) (pairing : List (String × PVal))
    (s : String)
    (habs : lookupKey "abstract" pairing = some (PVal.str s))
    (hs : s ≠ "") :
    ((formatEntryFull type key pairing).2).map Prod.fst
        = pairing.map Prod.fst
      ∧ (∀ i : Nat, ∀ p : String × PVal, pairing[i]? = some p →
          p.1 ≠ "abstract" →
            ((formatEntryFull type key pairing).2)[i]? = some p)
      ∧ lookupKey "abstract" ((formatEntryFull type key pairing).2)
          = some (PVal.str (padNL (maxKeyLen pairing + 6) s))
      ∧ maxKeyLen ((formatEntryFull type key pairing).2)
          = maxKeyLen pairing
      ∧ lookupKey "abstract"
          ((formatEntryFull type key
            ((formatEntryFull type key pairing).2)).2)
          = some (PVal.str (padNL (maxKeyLen pairing + 6)
              (padNL (maxKeyLen pairing + 6) s))) := by
  have hm2 := maxKeyLen_padAbstract (maxKeyLen pairing) pairing
  refine ⟨padAbstract_keys _ _, ?_, ?_, hm2, ?_⟩
  · intro i p hi hne
    simp only [formatEntryFull]
    rw [padAbstract_getElem, hi]
    simp [hne]
  · simp only [formatEntryFull]
    rw [lookupKey_padAbstract, habs]
    simp [padVal, hs]
  · simp only [formatEntryFull]
    rw [lookupKey_padAbstract, hm2, lookupKey_padAbstract, habs]
    simp [padVal, hs, padNL_ne_empty (maxKeyLen pairing + 6) s hs]

/-- Witness for C10 at a concrete pairing with a two-line abstract. -/
theorem C10_witness :
    lookupKey "abstract" pairingC10 = some (PVal.str "x\ny")
      ∧ ("x\ny" : String) ≠ ""
      ∧ lookupKey "abstract" ((formatEntryFull "misc" "k" pairingC10).2)
          = some (PVal.str (padNL (maxKeyLen pairingC10 + 6) "x\ny")) :=
  ⟨by decide, by decide,
    (C10_mutation "misc" "k" pairingC10 "x\ny" (by decide)
      (by decide)).2.2.1⟩
